import Mathlib

/-
Verification of the edge-search engine in `circuits/search/edges.py`.

The data model (`Node`, `Edge`, `EdgeGroup`) and the deterministic parts of
`EdgeSearch` (edge enumeration, placeholder generation, importance
normalization, token aggregation, dependency grouping, sample-count request)
are embedded as executable Lean definitions.  The stochastic quantities the
engine obtains from the external ablator and downstream recomputation (sampled
magnitudes, per-node MSE estimates) are abstracted as oracle parameters; the
arithmetic the engine performs on them is modelled exactly, over ℚ.
-/

set_option maxHeartbeats 1000000

namespace PLC

/-- One feature activation site: a (layer, token position, feature index)
triple, mirroring `circuits.Node`. -/
structure Node where
  layer_idx : ℤ
  token_idx : ℤ
  feature_idx : ℤ
deriving DecidableEq, Repr

/-- An ordered pair of an upstream and a downstream node, mirroring
`circuits.Edge`. -/
structure Edge where
  upstream : Node
  downstream : Node
deriving DecidableEq, Repr

/-- An aggregate key (upstream layer, upstream token, downstream token),
mirroring `circuits.EdgeGroup`. -/
structure EdgeGroup where
  upstream_layer_idx : ℤ
  upstream_token_idx : ℤ
  downstream_token_idx : ℤ
deriving DecidableEq, Repr

/-- The candidate-edge enumeration performed by `EdgeSearch.search`
(lines 78-83) and repeated verbatim by `EdgeSearch.get_placeholders`
(lines 135-139): the double loop over `upstream_nodes` and
`downstream_nodes` keeping pairs with `upstream.token_idx <=
downstream.token_idx`. -/
def allEdges (up down : Finset Node) : Finset Edge :=
  up.biUnion (fun u =>
    (down.filter (fun d => u.token_idx ≤ d.token_idx)).image (fun d => Edge.mk u d))

/-- The upstream layer index that `search` derives (line 65):
`upstream_idx = downstream_idx - 1`. -/
def searchUpstreamIdx (downstream_idx : ℤ) : ℤ :=
  downstream_idx - 1

/-- The entry validation performed by `search` (line 63): the only assertion
is `len(downstream_nodes) > 0`. -/
def searchPreconditionOk (down : Finset Node) : Bool :=
  decide (0 < down.card)

/-- The `upstream_blocks` set of `get_placeholders` (line 143): distinct
(layer, token) pairs of the upstream nodes. -/
def upstreamBlocks (up : Finset Node) : Finset (ℤ × ℤ) :=
  up.image (fun n => (n.layer_idx, n.token_idx))

/-- The edge-group enumeration of `get_placeholders` (lines 142-147): for
each upstream block, every downstream token index that is `>=` the block's
token index. -/
def placeholderEdgeGroups (up down : Finset Node) : Finset EdgeGroup :=
  (upstreamBlocks up).biUnion (fun b =>
    ((down.filter (fun n => b.2 ≤ n.token_idx)).image Node.token_idx).image
      (fun dt => EdgeGroup.mk b.1 b.2 dt))

/-- The `edge_importance` dict returned by `get_placeholders` (line 150):
every enumerated edge mapped to 1.0. -/
def placeholderEdgeImportance (up down : Finset Node) : Finset (Edge × ℚ) :=
  (allEdges up down).image (fun e => (e, 1))

/-- The `token_importance` dict returned by `get_placeholders` (line 151):
every enumerated edge group mapped to 0.0. -/
def placeholderTokenImportance (up down : Finset Node) : Finset (EdgeGroup × ℚ) :=
  (placeholderEdgeGroups up down).image (fun g => (g, 0))

/-- Spec-side characterization of a causally valid edge over
`upstream_nodes × downstream_nodes`. -/
def isCausalEdge (up down : Finset Node) (e : Edge) : Prop :=
  e.upstream ∈ up ∧ e.downstream ∈ down ∧ e.upstream.token_idx ≤ e.downstream.token_idx

instance (up down : Finset Node) (e : Edge) : Decidable (isCausalEdge up down e) := by
  unfold isCausalEdge
  infer_instance

/-- Spec-side characterization of a causally valid edge group: it is an
aggregate key realized by at least one causally valid edge. -/
def isCausalGroup (up down : Finset Node) (g : EdgeGroup) : Prop :=
  ∃ u ∈ up, ∃ d ∈ down,
    g.upstream_layer_idx = u.layer_idx ∧ g.upstream_token_idx = u.token_idx ∧
    g.downstream_token_idx = d.token_idx ∧ u.token_idx ≤ d.token_idx

instance (up down : Finset Node) (g : EdgeGroup) : Decidable (isCausalGroup up down g) := by
  unfold isCausalGroup
  infer_instance

theorem mem_allEdges {up down : Finset Node} {e : Edge} :
    e ∈ allEdges up down ↔ isCausalEdge up down e := by
  unfold allEdges isCausalEdge
  simp only [Finset.mem_biUnion, Finset.mem_image, Finset.mem_filter]
  constructor
  · rintro ⟨u, hu, d, ⟨hd, hle⟩, rfl⟩
    exact ⟨hu, hd, hle⟩
  · rintro ⟨hu, hd, hle⟩
    exact ⟨e.upstream, hu, e.downstream, ⟨hd, hle⟩, rfl⟩

/-- Python's `max(values, default=0)`: the maximum of a finite set of
rationals, or 0 when the set is empty. -/
def finMaxD (s : Finset ℚ) : ℚ :=
  if h : s.Nonempty then s.max' h else 0

/-- `edge_mse_increase` (lines 185-188): the ablated MSE of an edge minus the
baseline MSE of the edge's downstream node.  `baseline` abstracts
`baseline_mses`, `ablMse` abstracts the per-edge estimates produced by
`estimate_edge_ablation_effects` from the ablator's samples. -/
def edgeMseIncrease (baseline : Node → ℚ) (ablMse : Edge → ℚ) (e : Edge) : ℚ :=
  ablMse e - baseline e.downstream

/-- The `upstream_edges` of a downstream node (line 194): edges of the
candidate set whose downstream endpoint is that node. -/
def incidentEdges (allE : Finset Edge) (n : Node) : Finset Edge :=
  allE.filter (fun e => e.downstream = n)

/-- `max_mse_increases[node]` (lines 193-199): maximum MSE increase over the
node's incident edges, defaulting to 0 when there are none. -/
def maxMseIncrease (allE : Finset Edge) (baseline : Node → ℚ) (ablMse : Edge → ℚ)
    (n : Node) : ℚ :=
  finMaxD ((incidentEdges allE n).image (edgeMseIncrease baseline ablMse))

/-- `compute_edge_importance`'s normalization (lines 210-215): clamp the
increase at 0 and divide by the per-downstream-node maximum increase floored
at 1e-6. -/
def edgeImportance (allE : Finset Edge) (baseline : Node → ℚ) (ablMse : Edge → ℚ)
    (e : Edge) : ℚ :=
  max (edgeMseIncrease baseline ablMse e) 0 /
    max (maxMseIncrease allE baseline ablMse e.downstream) (1 / 1000000)

/-- Average of a rational-valued function over a finite set of nodes
(`sum(...) / len(...)`). -/
def ratAvg (s : Finset Node) (f : Node → ℚ) : ℚ :=
  s.sum f / s.card

/-- `token_baseline_mses[downstream_token_idx]` (lines 245-248): the baseline
MSEs of all downstream nodes at a token index, averaged. -/
def tokenBaseline (down : Finset Node) (baseline : Node → ℚ) (dt : ℤ) : ℚ :=
  ratAvg (down.filter (fun n => n.token_idx = dt)) baseline

/-- The downstream nodes reached from upstream token `ut` that sit at
downstream token `dt` (lines 324-327): `{edge.downstream for edge in
all_edges if edge.upstream.token_idx == token_idx}` bucketed by the node's
token index. -/
def ablatedNodes (allE : Finset Edge) (ut dt : ℤ) : Finset Node :=
  ((allE.filter (fun e => e.upstream.token_idx = ut)).image Edge.downstream).filter
    (fun n => n.token_idx = dt)

/-- `average_token_ablation_mses[dt][ut]` (lines 329-333): the per-node MSE
estimates under ablation of upstream token `ut`, averaged over the reached
downstream nodes at token `dt`.  `tokMse ut n` abstracts
`estimate_downstream_node_mses(...)[n]` for the circuit variant that excludes
all edges out of token `ut`. -/
def tokenAblationMse (allE : Finset Edge) (tokMse : ℤ → Node → ℚ) (dt ut : ℤ) : ℚ :=
  ratAvg (ablatedNodes allE ut dt) (tokMse ut)

/-- `token_mse_increases[dt][ut]` (lines 260-264): averaged ablation MSE minus
the per-downstream-token averaged baseline. -/
def tokenMseIncrease (allE : Finset Edge) (down : Finset Node) (baseline : Node → ℚ)
    (tokMse : ℤ → Node → ℚ) (dt ut : ℤ) : ℚ :=
  tokenAblationMse allE tokMse dt ut - tokenBaseline down baseline dt

/-- The upstream token indices present in `token_mse_increases[dt]`: those
with at least one edge into a downstream node at token `dt`. -/
def upstreamToks (allE : Finset Edge) (dt : ℤ) : Finset ℤ :=
  (allE.filter (fun e => e.downstream.token_idx = dt)).image
    (fun e => e.upstream.token_idx)

/-- `max_mse_increases[dt]` (lines 267-273): maximum token MSE increase over
the upstream-token candidates of downstream token `dt`, defaulting to 0. -/
def tokenMaxIncrease (allE : Finset Edge) (down : Finset Node) (baseline : Node → ℚ)
    (tokMse : ℤ → Node → ℚ) (dt : ℤ) : ℚ :=
  finMaxD ((upstreamToks allE dt).image (tokenMseIncrease allE down baseline tokMse dt))

/-- The edge groups keyed in `token_importance` (lines 286-291): one group per
(upstream token, downstream token) pair realized by some candidate edge, with
the upstream layer index taken from the downstream layer minus 1. -/
def tokenImportanceKeys (ulayer : ℤ) (allE : Finset Edge) : Finset EdgeGroup :=
  allE.image (fun e => EdgeGroup.mk ulayer e.upstream.token_idx e.downstream.token_idx)

/-- `compute_token_importance`'s normalization (lines 284-291): clamp the
token MSE increase at 0 and divide by the per-downstream-token maximum
increase floored at 1e-6. -/
def tokenImportance (allE : Finset Edge) (down : Finset Node) (baseline : Node → ℚ)
    (tokMse : ℤ → Node → ℚ) (g : EdgeGroup) : ℚ :=
  max (tokenMseIncrease allE down baseline tokMse g.downstream_token_idx g.upstream_token_idx) 0 /
    max (tokenMaxIncrease allE down baseline tokMse g.downstream_token_idx) (1 / 1000000)

theorem mem_placeholderEdgeGroups {up down : Finset Node} {g : EdgeGroup} :
    g ∈ placeholderEdgeGroups up down ↔ isCausalGroup up down g := by
  unfold placeholderEdgeGroups upstreamBlocks isCausalGroup
  simp only [Finset.mem_biUnion, Finset.mem_image, Finset.mem_filter]
  constructor
  · rintro ⟨b, ⟨u, hu, rfl⟩, dt, ⟨d, ⟨hd, hle⟩, rfl⟩, rfl⟩
    exact ⟨u, hu, d, hd, rfl, rfl, rfl, hle⟩
  · rintro ⟨u, hu, d, hd, h1, h2, h3, hle⟩
    refine ⟨(u.layer_idx, u.token_idx), ⟨u, hu, rfl⟩, d.token_idx, ⟨d, ⟨hd, hle⟩, rfl⟩, ?_⟩
    cases g
    simp_all

theorem le_finMaxD {s : Finset ℚ} {a : ℚ} (h : a ∈ s) : a ≤ finMaxD s := by
  unfold finMaxD
  rw [dif_pos ⟨a, h⟩]
  exact Finset.le_max' s a h

theorem finMaxD_mem {s : Finset ℚ} (h : s.Nonempty) : finMaxD s ∈ s := by
  unfold finMaxD
  rw [dif_pos h]
  exact s.max'_mem h

theorem finMaxD_singleton (x : ℚ) : finMaxD {x} = x := by
  unfold finMaxD
  rw [dif_pos (Finset.singleton_nonempty x)]
  exact Finset.max'_singleton x

theorem clamp_div_nonneg (incr mx : ℚ) :
    0 ≤ max incr 0 / max mx (1 / 1000000) := by
  have hpos : (0 : ℚ) < max mx (1 / 1000000) :=
    lt_of_lt_of_le (by norm_num) (le_max_right _ _)
  exact div_nonneg (le_max_right _ _) hpos.le

theorem clamp_div_le_one {incr mx : ℚ} (h : incr ≤ mx) :
    max incr 0 / max mx (1 / 1000000) ≤ 1 := by
  have hpos : (0 : ℚ) < max mx (1 / 1000000) :=
    lt_of_lt_of_le (by norm_num) (le_max_right _ _)
  rw [div_le_one hpos]
  rcases le_or_lt incr 0 with h0 | h0
  · calc max incr 0 = 0 := max_eq_right h0
    _ ≤ max mx (1 / 1000000) := hpos.le
  · calc max incr 0 = incr := max_eq_left h0.le
    _ ≤ mx := h
    _ ≤ max mx (1 / 1000000) := le_max_left _ _

/-- A concrete upstream node at layer 0, token 0, feature 0, for witnesses. -/
def uNode : Node := ⟨0, 0, 0⟩

/-- A concrete downstream node at layer 1, token 0, feature 0, for witnesses. -/
def dNode : Node := ⟨1, 0, 0⟩

/-- C2: for every result returned by search, every value in the
edge_importance map (keyed by the candidate edges) and every value in the
token_importance map (keyed by the realized edge groups) is ≥ 0 and ≤ 1,
for any baseline and ablation MSE estimates the ablator may produce. -/
theorem c2_importance_range (up down : Finset Node) (baseline : Node → ℚ)
    (ablMse : Edge → ℚ) (tokMse : ℤ → Node → ℚ) (ulayer : ℤ) :
    (∀ e ∈ allEdges up down,
        0 ≤ edgeImportance (allEdges up down) baseline ablMse e ∧
          edgeImportance (allEdges up down) baseline ablMse e ≤ 1) ∧
      (∀ g ∈ tokenImportanceKeys ulayer (allEdges up down),
        0 ≤ tokenImportance (allEdges up down) down baseline tokMse g ∧
          tokenImportance (allEdges up down) down baseline tokMse g ≤ 1) := by
  constructor
  · intro e he
    unfold edgeImportance
    refine ⟨clamp_div_nonneg _ _, clamp_div_le_one ?_⟩
    apply le_finMaxD
    apply Finset.mem_image_of_mem
    unfold incidentEdges
    exact Finset.mem_filter.mpr ⟨he, rfl⟩
  · intro g hg
    unfold tokenImportance
    refine ⟨clamp_div_nonneg _ _, clamp_div_le_one ?_⟩
    apply le_finMaxD
    apply Finset.mem_image_of_mem
    rcases Finset.mem_image.mp hg with ⟨e, he, rfl⟩
    unfold upstreamToks
    exact Finset.mem_image.mpr ⟨e, Finset.mem_filter.mpr ⟨he, rfl⟩, rfl⟩

/-- C2 witness: the range bounds instantiated at a concrete one-edge search. -/
theorem c2_importance_range_witness :
    0 ≤ edgeImportance (allEdges {uNode} {dNode}) (fun _ => 0) (fun _ => 1)
        (Edge.mk uNode dNode) ∧
      edgeImportance (allEdges {uNode} {dNode}) (fun _ => 0) (fun _ => 1)
        (Edge.mk uNode dNode) ≤ 1 :=
  (c2_importance_range {uNode} {dNode} (fun _ => 0) (fun _ => 1) (fun _ _ => 0) 0).1
    (Edge.mk uNode dNode) (by decide)

/-- C3 counterexample: with a single candidate edge whose raw MSE increase is
1e-7 — strictly positive but below the 1e-6 divisor floor — the edge's
importance is 1/10, so no edge incident to the downstream node reaches
importance exactly 1.0 even though the node has a candidate edge with a
strictly positive raw increase. -/
theorem c3_counterexample :
    (∃ e ∈ allEdges {uNode} {dNode}, e.downstream = dNode) ∧
      (∃ e ∈ allEdges {uNode} {dNode}, e.downstream = dNode ∧
        0 < edgeMseIncrease (fun _ => 0) (fun _ => 1 / 10000000) e) ∧
      ∀ e ∈ allEdges {uNode} {dNode}, e.downstream = dNode →
        edgeImportance (allEdges {uNode} {dNode}) (fun _ => 0)
          (fun _ => 1 / 10000000) e ≠ 1 := by
  have hE : allEdges {uNode} {dNode} = {Edge.mk uNode dNode} := by decide
  have hInc : incidentEdges (allEdges {uNode} {dNode}) dNode = {Edge.mk uNode dNode} := by
    decide
  refine ⟨⟨Edge.mk uNode dNode, by rw [hE]; exact Finset.mem_singleton_self _, rfl⟩,
    ⟨Edge.mk uNode dNode, by rw [hE]; exact Finset.mem_singleton_self _, rfl, ?_⟩, ?_⟩
  · unfold edgeMseIncrease
    norm_num
  · intro e he _
    rw [hE, Finset.mem_singleton] at he
    subst he
    unfold edgeImportance maxMseIncrease
    rw [hInc, Finset.image_singleton, finMaxD_singleton]
    unfold edgeMseIncrease
    rw [show ((1 : ℚ) / 10000000 - 0) = 1 / 10000000 by norm_num,
      max_eq_left (by norm_num : (0 : ℚ) ≤ 1 / 10000000),
      max_eq_right (by norm_num : (1 : ℚ) / 10000000 ≤ 1 / 1000000)]
    norm_num

/-- C3 (amended): for any downstream node with at least one incident candidate
edge whose raw MSE increase is at least 1e-6 (the normalization floor), at
least one incident edge receives importance exactly 1.0. -/
theorem c3_maximality_amended (up down : Finset Node) (baseline : Node → ℚ)
    (ablMse : Edge → ℚ) (n : Node)
    (h : ∃ e ∈ allEdges up down, e.downstream = n ∧
        1 / 1000000 ≤ edgeMseIncrease baseline ablMse e) :
    ∃ e ∈ allEdges up down, e.downstream = n ∧
      edgeImportance (allEdges up down) baseline ablMse e = 1 := by
  obtain ⟨e0, he0, hd0, hge⟩ := h
  have he0i : e0 ∈ incidentEdges (allEdges up down) n := by
    simp only [incidentEdges, Finset.mem_filter]
    exact ⟨he0, hd0⟩
  have hS : edgeMseIncrease baseline ablMse e0 ∈
      (incidentEdges (allEdges up down) n).image (edgeMseIncrease baseline ablMse) :=
    Finset.mem_image_of_mem _ he0i
  have hmax_mem := finMaxD_mem ⟨_, hS⟩
  obtain ⟨estar, hei, heq⟩ := Finset.mem_image.mp hmax_mem
  have hstar := Finset.mem_filter.mp hei
  have hMge : 1 / 1000000 ≤ maxMseIncrease (allEdges up down) baseline ablMse n :=
    le_trans hge (le_finMaxD hS)
  have hpos : (0 : ℚ) < maxMseIncrease (allEdges up down) baseline ablMse n :=
    lt_of_lt_of_le (by norm_num) hMge
  refine ⟨estar, hstar.1, hstar.2, ?_⟩
  unfold edgeImportance
  rw [hstar.2]
  have heq' : edgeMseIncrease baseline ablMse estar =
      maxMseIncrease (allEdges up down) baseline ablMse n := heq
  rw [heq', max_eq_left hpos.le, max_eq_left hMge]
  exact div_self hpos.ne'

/-- C3 amended witness: a concrete edge with raw increase 1 indeed receives
importance exactly 1.0. -/
theorem c3_maximality_amended_witness :
    ∃ e ∈ allEdges {uNode} {dNode}, e.downstream = dNode ∧
      edgeImportance (allEdges {uNode} {dNode}) (fun _ => 0) (fun _ => 1) e = 1 :=
  c3_maximality_amended {uNode} {dNode} (fun _ => 0) (fun _ => 1) dNode
    ⟨Edge.mk uNode dNode, by decide, rfl, by unfold edgeMseIncrease; norm_num⟩

/-- C5: get_placeholders returns an edge_importance map whose key set is
exactly the causally valid edges, every value exactly 1.0, and a
token_importance map whose key set is exactly the causally valid edge
groups, every value exactly 0.0. -/
theorem c5_placeholders (up down : Finset Node) :
    (∀ p : Edge × ℚ, p ∈ placeholderEdgeImportance up down ↔
        isCausalEdge up down p.1 ∧ p.2 = 1) ∧
      ∀ q : EdgeGroup × ℚ, q ∈ placeholderTokenImportance up down ↔
        isCausalGroup up down q.1 ∧ q.2 = 0 := by
  constructor
  · rintro ⟨a, b⟩
    unfold placeholderEdgeImportance
    rw [Finset.mem_image]
    constructor
    · rintro ⟨e, he, heq⟩
      cases heq
      exact ⟨mem_allEdges.mp he, rfl⟩
    · rintro ⟨hc, rfl⟩
      exact ⟨a, mem_allEdges.mpr hc, rfl⟩
  · rintro ⟨a, b⟩
    unfold placeholderTokenImportance
    rw [Finset.mem_image]
    constructor
    · rintro ⟨g, hg, heq⟩
      cases heq
      exact ⟨mem_placeholderEdgeGroups.mp hg, rfl⟩
    · rintro ⟨hc, rfl⟩
      exact ⟨a, mem_placeholderEdgeGroups.mpr hc, rfl⟩

/-- C6: every edge key and every edge-group key produced by search
(candidate edges, token-importance groups) and by get_placeholders
(edges, edge groups) satisfies upstream.token_idx ≤ downstream.token_idx. -/
theorem c6_causality (up down : Finset Node) (ulayer : ℤ) :
    (∀ e ∈ allEdges up down, e.upstream.token_idx ≤ e.downstream.token_idx) ∧
      (∀ g ∈ tokenImportanceKeys ulayer (allEdges up down),
        g.upstream_token_idx ≤ g.downstream_token_idx) ∧
      ∀ g ∈ placeholderEdgeGroups up down,
        g.upstream_token_idx ≤ g.downstream_token_idx := by
  refine ⟨fun e he => (mem_allEdges.mp he).2.2, ?_, ?_⟩
  · intro g hg
    rcases Finset.mem_image.mp hg with ⟨e, he, rfl⟩
    exact (mem_allEdges.mp he).2.2
  · intro g hg
    rcases mem_placeholderEdgeGroups.mp hg with ⟨u, hu, d, hd, h1, h2, h3, hle⟩
    rw [h2, h3]
    exact hle

/-- C6 witness: causality instantiated at a concrete edge of a concrete
search. -/
theorem c6_causality_witness :
    (Edge.mk uNode dNode).upstream.token_idx ≤ (Edge.mk uNode dNode).downstream.token_idx :=
  (c6_causality {uNode} {dNode} 0).1 (Edge.mk uNode dNode) (by decide)

/-- A concrete upstream node at layer 7 (not adjacent to any downstream layer
used in witnesses). -/
def uWild : Node := ⟨7, 0, 0⟩

/-- A concrete downstream node at layer 3. -/
def dWild : Node := ⟨3, 1, 0⟩

/-- C10: a pair is admitted as a candidate edge exactly when both endpoints
are in the supplied sets and the token indices are causal — the layer fields
of the upstream nodes are never inspected and no layer-adjacency validation
occurs; the upstream layer index of the search is derived solely as the
downstream layer index minus 1. -/
theorem c10_layer_free_edges (up down : Finset Node) (u d : Node) :
    (Edge.mk u d ∈ allEdges up down ↔
      u ∈ up ∧ d ∈ down ∧ u.token_idx ≤ d.token_idx) ∧
      ∀ dl : ℤ, searchUpstreamIdx dl = dl - 1 :=
  ⟨mem_allEdges, fun _ => rfl⟩

/-- C10 witness: with a mixed-layer upstream set (layers 0 and 7) and a
downstream node at layer 3, the non-adjacent pair (layer 7 → layer 3) is
admitted as an edge with no error. -/
theorem c10_layer_free_edges_witness :
    Edge.mk uWild dWild ∈ allEdges {uNode, uWild} {dWild} :=
  ((c10_layer_free_edges {uNode, uWild} {dWild} uWild dWild).1).mpr (by decide)

theorem ratAvg_sub (s : Finset Node) (f g : Node → ℚ) :
    ratAvg s (fun n => f n - g n) = ratAvg s f - ratAvg s g := by
  unfold ratAvg
  rw [Finset.sum_sub_distrib, sub_div]

/-- Modelled from the spec's words, for comparison with the code: the MSE
increase of one downstream node under ablation of upstream token `ut` is the
ablated estimate minus that node's own baseline MSE. -/
def specNodeIncrease (baseline : Node → ℚ) (tokMse : ℤ → Node → ℚ) (ut : ℤ)
    (n : Node) : ℚ :=
  tokMse ut n - baseline n

/-- Modelled from the spec's words: the per-downstream-node MSE increases
contributed by edges originating at upstream token `ut`, averaged over the
downstream nodes at downstream token `dt`. -/
def specTokenIncrease (allE : Finset Edge) (baseline : Node → ℚ)
    (tokMse : ℤ → Node → ℚ) (dt ut : ℤ) : ℚ :=
  ratAvg (ablatedNodes allE ut dt) (specNodeIncrease baseline tokMse ut)

/-- Modelled from the spec's words: the maximum spec-side increase among the
upstream-token candidates feeding downstream token `dt`. -/
def specTokenMaxIncrease (allE : Finset Edge) (baseline : Node → ℚ)
    (tokMse : ℤ → Node → ℚ) (dt : ℤ) : ℚ :=
  finMaxD ((upstreamToks allE dt).image (specTokenIncrease allE baseline tokMse dt))

/-- Modelled from the spec's words: the clamped, normalized average of the
per-downstream-node MSE increases for an edge group. -/
def specTokenImportance (allE : Finset Edge) (baseline : Node → ℚ)
    (tokMse : ℤ → Node → ℚ) (g : EdgeGroup) : ℚ :=
  max (specTokenIncrease allE baseline tokMse g.downstream_token_idx g.upstream_token_idx) 0 /
    max (specTokenMaxIncrease allE baseline tokMse g.downstream_token_idx) (1 / 1000000)

theorem ablatedNodes_full {up down : Finset Node} {dt ut : ℤ}
    (hut : ut ∈ upstreamToks (allEdges up down) dt) :
    ablatedNodes (allEdges up down) ut dt = down.filter (fun n => n.token_idx = dt) := by
  rcases Finset.mem_image.mp hut with ⟨e0, he0f, hut0⟩
  have he0 := Finset.mem_filter.mp he0f
  apply Finset.ext
  intro n
  constructor
  · intro hn
    rcases Finset.mem_filter.mp hn with ⟨hn1, hn2⟩
    rcases Finset.mem_image.mp hn1 with ⟨e, hef, rfl⟩
    rcases Finset.mem_filter.mp hef with ⟨he, _⟩
    exact Finset.mem_filter.mpr ⟨(mem_allEdges.mp he).2.1, hn2⟩
  · intro hn
    rcases Finset.mem_filter.mp hn with ⟨hnd, hnt⟩
    have hu : e0.upstream ∈ up := (mem_allEdges.mp he0.1).1
    have hle : e0.upstream.token_idx ≤ n.token_idx := by
      rw [hnt, ← he0.2]
      exact (mem_allEdges.mp he0.1).2.2
    have hmem : Edge.mk e0.upstream n ∈ allEdges up down :=
      mem_allEdges.mpr ⟨hu, hnd, hle⟩
    refine Finset.mem_filter.mpr ⟨?_, hnt⟩
    refine Finset.mem_image.mpr ⟨Edge.mk e0.upstream n, ?_, rfl⟩
    exact Finset.mem_filter.mpr ⟨hmem, hut0⟩

theorem tokenMseIncrease_eq_spec {up down : Finset Node} (baseline : Node → ℚ)
    (tokMse : ℤ → Node → ℚ) {dt ut : ℤ}
    (hut : ut ∈ upstreamToks (allEdges up down) dt) :
    tokenMseIncrease (allEdges up down) down baseline tokMse dt ut =
      specTokenIncrease (allEdges up down) baseline tokMse dt ut := by
  unfold tokenMseIncrease specTokenIncrease tokenAblationMse tokenBaseline specNodeIncrease
  rw [ablatedNodes_full hut, ratAvg_sub]

/-- C7: for every edge group of a search result, the token-importance value
equals the clamped, normalized average of the per-downstream-node MSE
increases (ablated MSE minus that node's own baseline MSE) contributed by
edges originating at that upstream token, averaged over the downstream nodes
at that downstream token index — because the candidate set is the full causal
product, the per-token averaged baseline the code subtracts coincides with
the average of the per-node baselines. -/
theorem c7_token_aggregation (up down : Finset Node) (baseline : Node → ℚ)
    (tokMse : ℤ → Node → ℚ) (ulayer : ℤ) :
    ∀ g ∈ tokenImportanceKeys ulayer (allEdges up down),
      tokenImportance (allEdges up down) down baseline tokMse g =
        specTokenImportance (allEdges up down) baseline tokMse g := by
  intro g hg
  have hmax : ∀ dt, tokenMaxIncrease (allEdges up down) down baseline tokMse dt =
      specTokenMaxIncrease (allEdges up down) baseline tokMse dt := by
    intro dt
    unfold tokenMaxIncrease specTokenMaxIncrease
    congr 1
    apply Finset.image_congr
    intro ut hut
    exact tokenMseIncrease_eq_spec baseline tokMse (Finset.mem_coe.mp hut)
  rcases Finset.mem_image.mp hg with ⟨e, he, rfl⟩
  have hut : e.upstream.token_idx ∈ upstreamToks (allEdges up down) e.downstream.token_idx :=
    Finset.mem_image.mpr ⟨e, Finset.mem_filter.mpr ⟨he, rfl⟩, rfl⟩
  unfold tokenImportance specTokenImportance
  rw [tokenMseIncrease_eq_spec baseline tokMse hut, hmax]

/-- C7 witness: the aggregation identity instantiated at a concrete one-edge
search. -/
theorem c7_token_aggregation_witness :
    tokenImportance (allEdges {uNode} {dNode}) {dNode} (fun _ => 0) (fun _ _ => 1)
        (EdgeGroup.mk 0 0 0) =
      specTokenImportance (allEdges {uNode} {dNode}) (fun _ => 0) (fun _ _ => 1)
        (EdgeGroup.mk 0 0 0) :=
  c7_token_aggregation {uNode} {dNode} (fun _ => 0) (fun _ _ => 1) 0
    (EdgeGroup.mk 0 0 0) (by decide)

/-- C4 counterexample: a downstream set containing nodes at two different
layers (1 and 3) passes search's entry validation — the code asserts only
non-emptiness and never checks that downstream nodes share a layer, so a
mixed-layer downstream set does not fail. -/
theorem c4_counterexample :
    dNode.layer_idx ≠ dWild.layer_idx ∧
      searchPreconditionOk {dNode, dWild} = true := by
  decide

/-- C4 (amended): search's entry validation fails exactly when
downstream_nodes is empty; no mixed-layer validation is performed. -/
theorem c4_empty_check_amended (down : Finset Node) :
    searchPreconditionOk down = false ↔ down = ∅ := by
  unfold searchPreconditionOk
  simp [Finset.card_pos, Finset.not_nonempty_iff_eq_empty]

/-- C4 amended witness: the empty downstream set is rejected. -/
theorem c4_empty_check_amended_witness :
    searchPreconditionOk (∅ : Finset Node) = false :=
  (c4_empty_check_amended ∅).mpr rfl

/-- The oversample request of `estimate_downstream_node_means` (line 444):
`min(num_samples * 4, k_nearest or int(1e10))`.  `k_nearest` is `None`
(unbounded pool) or a natural number; Python's `or` replaces both `None` and
`0` — the falsy values — by `int(1e10)`. -/
def requestedSamples (num_samples : ℕ) (k_nearest : Option ℕ) : ℕ :=
  min (num_samples * 4)
    (match k_nearest with
      | some k => if k = 0 then 10000000000 else k
      | none => 10000000000)

/-- C8 counterexample: with a finite pool of size `k_nearest = 0` and
`num_samples = 1`, the code requests 4 samples, not
`min(4 * num_samples, k_nearest) = 0` — Python's `or` treats 0 like `None`. -/
theorem c8_counterexample :
    requestedSamples 1 (some 0) = 4 ∧ requestedSamples 1 (some 0) ≠ min (1 * 4) 0 := by
  decide

/-- C8 (amended): when the pool bound is a positive integer the request is
exactly `min(num_samples * 4, k_nearest)`; when it is `None` (or 0) the
request is `min(num_samples * 4, 10^10)`. -/
theorem c8_sample_request_amended (n k : ℕ) (hk : 0 < k) :
    requestedSamples n (some k) = min (n * 4) k ∧
      requestedSamples n none = min (n * 4) 10000000000 := by
  refine ⟨?_, rfl⟩
  show min (n * 4) (if k = 0 then 10000000000 else k) = min (n * 4) k
  rw [if_neg hk.ne']

/-- C8 amended witness: a finite positive pool of 5 caps a request of 3*4. -/
theorem c8_sample_request_amended_witness :
    requestedSamples 3 (some 5) = min (3 * 4) 5 ∧
      requestedSamples 3 none = min (3 * 4) 10000000000 :=
  c8_sample_request_amended 3 5 (by decide)

/-- `node_to_dependencies[node]` (lines 471-473): the upstream endpoints of
the retained edges into a downstream node. -/
def nodeDependencies (edges : Finset Edge) (n : Node) : Finset Node :=
  (edges.filter (fun e => e.downstream = n)).image Edge.upstream

/-- `circuit_variants` (lines 474-479): the ablator is invoked with one
circuit (node set) per key of the `dependencies_to_nodes` grouping, i.e. one
per distinct dependency set among the downstream nodes, which are enumerated
in dict order `order`. -/
def circuitVariants (order : List Node) (edges : Finset Edge) : List (Finset Node) :=
  (order.map (nodeDependencies edges)).dedup

/-- The assembly of `sampled_magnitudes` (lines 490-506): for each circuit
variant, every downstream node grouped under it receives the slice of that
variant's sample batch at the node's own token and feature indices.
`batch deps t f` abstracts the ablator-plus-downstream-recomputation sample
tensor of the variant with node set `deps`, sliced at `[:, t, f]`. -/
def sampledMagnitudesList (order : List Node) (edges : Finset Edge)
    (batch : Finset Node → ℤ → ℤ → List ℚ) : List (Node × List ℚ) :=
  (circuitVariants order edges).flatMap (fun v =>
    (order.filter (fun n => nodeDependencies edges n = v)).map
      (fun n => (n, batch v n.token_idx n.feature_idx)))

/-- The sample list the engine subsequently uses for a node: the entry for
that node in the assembled mapping. -/
def lookupSample (order : List Node) (edges : Finset Edge)
    (batch : Finset Node → ℤ → ℤ → List ℚ) (n : Node) : Option (List ℚ) :=
  ((sampledMagnitudesList order edges batch).find? (fun p => decide (p.1 = n))).map Prod.snd

theorem sampled_entry (order : List Node) (edges : Finset Edge)
    (batch : Finset Node → ℤ → ℤ → List ℚ) :
    ∀ p ∈ sampledMagnitudesList order edges batch,
      p.2 = batch (nodeDependencies edges p.1) p.1.token_idx p.1.feature_idx := by
  intro p hp
  unfold sampledMagnitudesList at hp
  rcases List.mem_flatMap.mp hp with ⟨v, hv, hp2⟩
  rcases List.mem_map.mp hp2 with ⟨n, hn, rfl⟩
  have hd : nodeDependencies edges n = v := by
    have := (List.mem_filter.mp hn).2
    simpa using this
  simp [hd]

theorem lookupSample_eq (order : List Node) (edges : Finset Edge)
    (batch : Finset Node → ℤ → ℤ → List ℚ) :
    ∀ n ∈ order, lookupSample order edges batch n =
      some (batch (nodeDependencies edges n) n.token_idx n.feature_idx) := by
  intro n hn
  unfold lookupSample
  have hmem : (n, batch (nodeDependencies edges n) n.token_idx n.feature_idx) ∈
      sampledMagnitudesList order edges batch := by
    unfold sampledMagnitudesList
    apply List.mem_flatMap.mpr
    refine ⟨nodeDependencies edges n, ?_, ?_⟩
    · exact List.mem_dedup.mpr (List.mem_map.mpr ⟨n, hn, rfl⟩)
    · apply List.mem_map.mpr
      refine ⟨n, ?_, rfl⟩
      apply List.mem_filter.mpr
      exact ⟨hn, by simp⟩
  cases hfind : (sampledMagnitudesList order edges batch).find? (fun p => decide (p.1 = n)) with
  | none =>
      exfalso
      have := List.find?_eq_none.mp hfind _ hmem
      simp at this
  | some p =>
      have hp1 : p.1 = n := by
        have := List.find?_some hfind
        simpa using this
      have hpl : p ∈ sampledMagnitudesList order edges batch :=
        List.mem_of_find?_eq_some hfind
      have hp2 := sampled_entry order edges batch p hpl
      simp [hp2, hp1]

/-- C9: the ablator is invoked with exactly one circuit variant per distinct
dependency set (the variant list is duplicate-free and its members are
exactly the dependency sets of the enumerated downstream nodes), every
node's sampled magnitudes are read from its own dependency set's sample
batch, and two downstream nodes with identical dependency sets draw from the
same sample batch. -/
theorem c9_dependency_grouping (order : List Node) (edges : Finset Edge)
    (batch : Finset Node → ℤ → ℤ → List ℚ) :
    (circuitVariants order edges).Nodup ∧
      (∀ v, v ∈ circuitVariants order edges ↔
        ∃ n ∈ order, nodeDependencies edges n = v) ∧
      (∀ n ∈ order, lookupSample order edges batch n =
        some (batch (nodeDependencies edges n) n.token_idx n.feature_idx)) ∧
      ∀ n1 ∈ order, ∀ n2 ∈ order,
        nodeDependencies edges n1 = nodeDependencies edges n2 →
        ∃ v, lookupSample order edges batch n1 = some (batch v n1.token_idx n1.feature_idx) ∧
          lookupSample order edges batch n2 = some (batch v n2.token_idx n2.feature_idx) := by
  refine ⟨List.nodup_dedup _, ?_, lookupSample_eq order edges batch, ?_⟩
  · intro v
    unfold circuitVariants
    rw [List.mem_dedup, List.mem_map]
  · intro n1 hn1 n2 hn2 hdep
    refine ⟨nodeDependencies edges n1, lookupSample_eq order edges batch n1 hn1, ?_⟩
    rw [hdep]
    exact lookupSample_eq order edges batch n2 hn2

/-- C9 witness: the grouping facts instantiated at a concrete one-node,
one-edge configuration. -/
theorem c9_dependency_grouping_witness :
    lookupSample [dNode] {Edge.mk uNode dNode} (fun _ _ _ => ([1] : List ℚ)) dNode =
      some [1] :=
  (c9_dependency_grouping [dNode] {Edge.mk uNode dNode}
    (fun _ _ _ => ([1] : List ℚ))).2.2.1 dNode (by decide)

/-- `torch.mean` over one node's list of sampled scalars. -/
def listMean (l : List ℚ) : ℚ :=
  l.sum / l.length

/-- The per-feature normalization coefficient (lines 404-410):
`1.0 / feature_profile.max`, with the feature profile looked up by a node's
feature index in the downstream layer's profile (`featureMax`). -/
def normCoeff (featureMax : ℤ → ℚ) (n : Node) : ℚ :=
  1 / featureMax n.feature_idx

/-- `estimate_downstream_node_mses` as the source executes it
(lines 404-418): after the coefficient loop `for i, node in enumerate(...)`
finishes, the second loop reads `norm_coefficients[i]` with `i` still bound
to its final value, so the coefficient of the LAST node of the iteration
`order` is applied to every node's squared error. -/
def downstreamNodeMsesCode (featureMax : ℤ → ℚ) (order : List Node)
    (samples : Node → List ℚ) (means : Node → ℚ) (n : Node) : ℚ :=
  listMean ((samples n).map
    (fun x => (normCoeff featureMax (order.getLastD n) * (x - means n)) ^ 2))

/-- Modelled from the spec's words: each downstream node's squared error is
scaled by that node's own coefficient
`coeff[node] = 1 / max_observed_magnitude(node)`. -/
def downstreamNodeMsesSpec (featureMax : ℤ → ℚ) (samples : Node → List ℚ)
    (means : Node → ℚ) (n : Node) : ℚ :=
  listMean ((samples n).map
    (fun x => (normCoeff featureMax n * (x - means n)) ^ 2))

/-- A second concrete downstream node at layer 1, token 0, feature 1. -/
def dNode2 : Node := ⟨1, 0, 1⟩

/-- A concrete feature profile for the downstream layer: feature 0 has
observed max 1, feature 1 has observed max 2. -/
def exFeatureMax : ℤ → ℚ :=
  fun f => if f = 0 then 1 else 2

/-- C1: evaluation at the failing input.  With downstream nodes of features
0 (max 1) and 1 (max 2), one sample equal to 1 and reference mean 0, the
source computes node (feature 0)'s normalized MSE with the coefficient of
the last enumerated node — 1/2 instead of the node's own 1 — yielding 1/4
where the specified per-node coefficient yields 1; with the reversed
enumeration the other node is skewed instead. -/
theorem c1_stale_coefficient_eval :
    downstreamNodeMsesCode exFeatureMax [dNode, dNode2] (fun _ => [1]) (fun _ => 0) dNode
        = 1 / 4 ∧
      downstreamNodeMsesSpec exFeatureMax (fun _ => [1]) (fun _ => 0) dNode = 1 ∧
      downstreamNodeMsesCode exFeatureMax [dNode2, dNode] (fun _ => [1]) (fun _ => 0) dNode2
        = 1 ∧
      downstreamNodeMsesSpec exFeatureMax (fun _ => [1]) (fun _ => 0) dNode2 = 1 / 4 ∧
      ((1 : ℚ) / 4 ≠ 1 ∧ (1 : ℚ) ≠ 1 / 4) := by
  refine ⟨?_, ?_, ?_, ?_, by norm_num, by norm_num⟩ <;>
    norm_num [downstreamNodeMsesCode, downstreamNodeMsesSpec, listMean, normCoeff,
      exFeatureMax, dNode, dNode2, List.getLastD]

/-- C5 witness: the placeholder characterization instantiated at a concrete
pair of node sets. -/
theorem c5_placeholders_witness :
    (Edge.mk uNode dNode, (1 : ℚ)) ∈ placeholderEdgeImportance {uNode} {dNode} :=
  ((c5_placeholders {uNode} {dNode}).1 (Edge.mk uNode dNode, 1)).mpr ⟨by decide, rfl⟩
